import Mathlib

/-!
Verification of the canonicalization primitives in `signature/v4-utils.go` of
the yig object-storage server: the region check `isValidRegion`, the keyed
hash `sumHMAC` (HMAC-SHA256 from Go's `crypto/hmac` / `crypto/sha256`), the
percent-encoder `getURLEncodedName`, and the canonical-header builder
`getCanonicalHeaders`.

Modelling conventions:
* Go byte strings are `List Nat` (each element a byte value `< 256` in
  well-formed inputs); Go `string` values that only flow through the header
  canonicalizer are modelled as Lean `String`.
* Machine words are `Nat` with explicit reduction `% 2 ^ 32` where Go
  arithmetic wraps.
* `for _, s := range name` over a Go string decodes UTF-8 one rune at a time,
  yielding U+FFFD (65533) and advancing one byte on malformed input; this is
  embedded by `decodeRune` / `rangeRunes` below, following the acceptance
  ranges of Go's `unicode/utf8.DecodeRuneInString`.
* Loops that consume at least one list element per iteration are written with
  an explicit fuel argument initialized to the list length, so that every
  definition is structurally recursive and kernel-reducible.
-/

namespace YigV4

/-! ## Region validation (`isValidRegion`) -/

/-- The configured region constant `REGION = "cn-bj-1"`. -/
def REGION : String := "cn-bj-1"

/-- `isValidRegion` from v4-utils.go: empty region is accepted, otherwise the
request region must equal the configured `REGION` exactly. -/
def isValidRegion (reqRegion : String) : Bool :=
  if reqRegion = "" then true
  else reqRegion == REGION

/-! ## Canonical header construction (`getCanonicalHeaders`) -/

/-- The single sentinel error of this core, `ErrMissingRequiredSignedHeader`
(defined in the repository's error package and returned by
`getCanonicalHeaders`). -/
inductive SigError where
  | missingRequiredSignedHeader
deriving DecidableEq

/-- The slice of an `*http.Request` that `getCanonicalHeaders` reads: the
header map (keys stored in canonical MIME form, as Go's `net/http` server
stores them) and the dedicated `Host` field into which Go's http server
promotes the Host header. -/
structure HttpRequest where
  header : List (String × List String)
  host : String

/-- Go `net/textproto.validHeaderFieldByte`: ASCII letters, digits, and the
token characters from RFC 7230 (values given numerically: `!#$%&'*+-.^_|~`
and the backquote, code 96). -/
def validHeaderFieldChar (c : Char) : Bool :=
  decide ((48 ≤ c.toNat ∧ c.toNat ≤ 57) ∨ (65 ≤ c.toNat ∧ c.toNat ≤ 90) ∨
    (97 ≤ c.toNat ∧ c.toNat ≤ 122) ∨ c.toNat = 33 ∨ c.toNat = 35 ∨ c.toNat = 36 ∨
    c.toNat = 37 ∨ c.toNat = 38 ∨ c.toNat = 39 ∨ c.toNat = 42 ∨ c.toNat = 43 ∨
    c.toNat = 45 ∨ c.toNat = 46 ∨ c.toNat = 94 ∨ c.toNat = 95 ∨ c.toNat = 96 ∨
    c.toNat = 124 ∨ c.toNat = 126)

/-- The canonicalizing loop of Go `net/textproto.canonicalMIMEHeaderKey`:
uppercase a letter at the start and after each `-`, lowercase every other
letter; the `upper` flag for the next character is whether the current
(transformed) character is `-` (code 45). -/
def canonAux : Bool → List Char → List Char
  | _, [] => []
  | upper, c :: rest =>
    let c2 :=
      if upper ∧ 97 ≤ c.toNat ∧ c.toNat ≤ 122 then Char.ofNat (c.toNat - 32)
      else if (¬ upper) ∧ 65 ≤ c.toNat ∧ c.toNat ≤ 90 then Char.ofNat (c.toNat + 32)
      else c
    c2 :: canonAux (c2.toNat = 45) rest

/-- Go `http.CanonicalHeaderKey` (via `textproto.CanonicalMIMEHeaderKey`):
if every character is a valid header-field byte, return the canonical MIME
form; otherwise return the key unchanged. -/
def canonicalHeaderKey (s : String) : String :=
  if s.data.all validHeaderFieldChar then ⟨canonAux true s.data⟩ else s

/-- The inner loop of `getCanonicalHeaders` over one header's values:
`for idx, v := range values { if idx > 0 { += "," }; += v }`. -/
def joinValues : List String → String
  | [] => ""
  | v :: rest => rest.foldl (fun acc w => acc ++ "," ++ w) v

/-- The loop body of `getCanonicalHeaders`, with the accumulated canonical
string made explicit. Per signed header: look the canonical key up in the
header map, then apply the `expect` compensation (Go's http server strips the
Expect header; RFC 2616 makes `100-continue` the value to assume) and the
`host` compensation (Go promotes Host into `Request.Host`); a header still
missing aborts with `("", ErrMissingRequiredSignedHeader)`. -/
def canonicalHeadersLoop (req : HttpRequest) : String → List String → String × Option SigError
  | acc, [] => (acc, none)
  | acc, header :: rest =>
    let v0 := req.header.lookup (canonicalHeaderKey header)
    let v1 := if header = "expect" then some ["100-continue"] else v0
    let v2 := if header = "host" then some [req.host] else v1
    match v2 with
    | none => ("", some SigError.missingRequiredSignedHeader)
    | some values =>
      canonicalHeadersLoop req (acc ++ header ++ ":" ++ joinValues values ++ "\n") rest

/-- `getCanonicalHeaders` from v4-utils.go: fold the loop over the signed
headers starting from the empty canonical string. -/
def getCanonicalHeaders (signedHeaders : List String) (req : HttpRequest) :
    String × Option SigError :=
  canonicalHeadersLoop req "" signedHeaders

/-- The values the loop effectively uses for one signed header name: the
`expect` and `host` compensations, and otherwise the canonical-key lookup.
(The code performs the lookup first and then overrides it; the result is the
same.) -/
def effectiveValues (req : HttpRequest) (header : String) : Option (List String) :=
  if header = "expect" then some ["100-continue"]
  else if header = "host" then some [req.host]
  else req.header.lookup (canonicalHeaderKey header)

/-- The canonical line contributed by one signed header on success. -/
def headerLine (req : HttpRequest) (header : String) : String :=
  header ++ ":" ++ joinValues ((effectiveValues req header).getD []) ++ "\n"

/-- Concatenation of a list of strings (the canonical block as a whole). -/
def concatAll : List String → String
  | [] => ""
  | s :: rest => s ++ concatAll rest

/-! ## Percent-encoding of resource names (`getURLEncodedName`)

The encoder works on the raw bytes of a Go string (`List Nat`). -/

/-- One byte of the character class of the reserved-names regexp
`^[a-zA-Z0-9-_.~/]+$`: ASCII letters, digits, `-` `_` `.` `~` `/`. -/
def isReservedByte (b : Nat) : Bool :=
  decide ((65 ≤ b ∧ b ≤ 90) ∨ (97 ≤ b ∧ b ≤ 122) ∨ (48 ≤ b ∧ b ≤ 57) ∨
    b = 45 ∨ b = 95 ∨ b = 46 ∨ b = 126 ∨ b = 47)

/-- `reservedNames.MatchString name` for the anchored regexp
`^[a-zA-Z0-9-_.~/]+$`: the string is nonempty and every byte is in the class.
(The class is pure ASCII, so rune-wise regexp matching and byte-wise matching
agree: any byte outside the class — in particular any byte ≥ 0x80 of a
multi-byte or malformed sequence — makes the whole match fail.) -/
def matchesReserved (name : List Nat) : Bool :=
  !name.isEmpty && name.all isReservedByte

/-- Second-byte acceptance for a three-byte UTF-8 sequence, per the
`acceptRanges` table of Go `unicode/utf8`: starter `0xE0` requires
`0xA0..0xBF`, starter `0xED` requires `0x80..0x9F` (excluding surrogates),
all other starters require `0x80..0xBF`. -/
def accept3 (b0 b1 : Nat) : Prop :=
  (b0 = 224 ∧ 160 ≤ b1 ∧ b1 ≤ 191) ∨
  (b0 = 237 ∧ 128 ≤ b1 ∧ b1 ≤ 159) ∨
  (b0 ≠ 224 ∧ b0 ≠ 237 ∧ 128 ≤ b1 ∧ b1 ≤ 191)

instance (b0 b1 : Nat) : Decidable (accept3 b0 b1) := by
  unfold accept3; infer_instance

/-- Second-byte acceptance for a four-byte UTF-8 sequence: starter `0xF0`
requires `0x90..0xBF`, starter `0xF4` requires `0x80..0x8F` (capping at
U+10FFFF), starters `0xF1..0xF3` require `0x80..0xBF`. -/
def accept4 (b0 b1 : Nat) : Prop :=
  (b0 = 240 ∧ 144 ≤ b1 ∧ b1 ≤ 191) ∨
  (b0 = 244 ∧ 128 ≤ b1 ∧ b1 ≤ 143) ∨
  (241 ≤ b0 ∧ b0 ≤ 243 ∧ 128 ≤ b1 ∧ b1 ≤ 191)

instance (b0 b1 : Nat) : Decidable (accept4 b0 b1) := by
  unfold accept4; infer_instance

/-- Go `unicode/utf8.DecodeRuneInString`: decode the first rune of a byte
string, returning `(rune, size)`. Malformed input (bad starter, bad
continuation byte, truncated sequence, overlong form, surrogate, value above
U+10FFFF) yields `(RuneError, 1)` with `RuneError = U+FFFD = 65533`. The
masked shift-or combinations of the Go code are written arithmetically:
`(b &&& 0x3F)` is `b % 64`, `x <<< 6 ||| y` with `y < 64` is `x * 64 + y`,
and so on. -/
def decodeRune : List Nat → Nat × Nat
  | [] => (65533, 0)
  | b0 :: rest =>
    if b0 < 128 then (b0, 1)
    else if 194 ≤ b0 ∧ b0 ≤ 223 then
      match rest with
      | b1 :: _ =>
        if 128 ≤ b1 ∧ b1 ≤ 191 then ((b0 % 32) * 64 + b1 % 64, 2)
        else (65533, 1)
      | [] => (65533, 1)
    else if 224 ≤ b0 ∧ b0 ≤ 239 then
      match rest with
      | b1 :: b2 :: _ =>
        if accept3 b0 b1 ∧ 128 ≤ b2 ∧ b2 ≤ 191 then
          ((b0 % 16) * 4096 + (b1 % 64) * 64 + b2 % 64, 3)
        else (65533, 1)
      | _ => (65533, 1)
    else if 240 ≤ b0 ∧ b0 ≤ 244 then
      match rest with
      | b1 :: b2 :: b3 :: _ =>
        if accept4 b0 b1 ∧ (128 ≤ b2 ∧ b2 ≤ 191) ∧ (128 ≤ b3 ∧ b3 ≤ 191) then
          ((b0 % 8) * 262144 + (b1 % 64) * 4096 + (b2 % 64) * 64 + b3 % 64, 4)
        else (65533, 1)
      | _ => (65533, 1)
    else (65533, 1)

/-- The rune sequence produced by Go's `for _, s := range name` over a byte
string: repeatedly decode a rune and advance by its size. Every iteration
consumes at least one byte (`decodeRune` returns size ≥ 1 on nonempty input,
and `rest.drop (size - 1)` equals dropping `size` bytes from the whole), so
fuel `name.length` makes the recursion structural without changing the
result. -/
def rangeRunesAux : Nat → List Nat → List Nat
  | 0, _ => []
  | _ + 1, [] => []
  | fuel + 1, b :: rest =>
    (decodeRune (b :: rest)).1 ::
      rangeRunesAux fuel (rest.drop ((decodeRune (b :: rest)).2 - 1))

/-- All runes yielded by ranging over the byte string `name`. -/
def rangeRunes (name : List Nat) : List Nat :=
  rangeRunesAux name.length name

/-- Go `unicode/utf8.RuneLen`: the UTF-8 length of a rune, `-1` for
surrogates and values above U+10FFFF (negative rune values cannot occur
here since runes are modelled as `Nat`). -/
def runeLen (r : Nat) : Int :=
  if r ≤ 127 then 1
  else if r ≤ 2047 then 2
  else if 55296 ≤ r ∧ r ≤ 57343 then -1
  else if r ≤ 65535 then 3
  else if r ≤ 1114111 then 4
  else -1

/-- Go `unicode/utf8.EncodeRune` (also Go's `string(s)` conversion of a rune):
the UTF-8 bytes of a rune, with surrogates and out-of-range values encoded as
`RuneError` U+FFFD. -/
def encodeRuneBytes (r : Nat) : List Nat :=
  if r ≤ 127 then [r]
  else if r ≤ 2047 then [192 + r / 64, 128 + r % 64]
  else if (55296 ≤ r ∧ r ≤ 57343) ∨ 1114111 < r then [239, 191, 189]
  else if r ≤ 65535 then [224 + r / 4096, 128 + r / 64 % 64, 128 + r % 64]
  else [240 + r / 262144, 128 + r / 4096 % 64, 128 + r / 64 % 64, 128 + r % 64]

/-- One lowercase hexadecimal digit byte, as produced by Go
`encoding/hex.EncodeToString`. -/
def hexDigitLower (n : Nat) : Nat :=
  if n < 10 then 48 + n else 87 + n

/-- ASCII uppercasing of one byte, the effect of Go `strings.ToUpper` on the
ASCII hex digits it is applied to here. -/
def asciiUpperByte (b : Nat) : Nat :=
  if 97 ≤ b ∧ b ≤ 122 then b - 32 else b

/-- The bytes appended for one byte `r` of a rune's UTF-8 encoding:
`"%" + strings.ToUpper(hex.EncodeToString([]byte{r}))`. -/
def percentHexUpper (r : Nat) : List Nat :=
  37 :: (([hexDigitLower (r / 16), hexDigitLower (r % 16)]).map asciiUpperByte)

/-- The rune test of the encoder loop: ASCII letters and digits (first `if`)
and the marks `- _ . ~ /` of the `switch` — the unreserved characters that
are emitted unchanged. -/
def isUnreservedRune (s : Nat) : Bool :=
  decide ((65 ≤ s ∧ s ≤ 90) ∨ (97 ≤ s ∧ s ≤ 122) ∨ (48 ≤ s ∧ s ≤ 57) ∨
    s = 45 ∨ s = 95 ∨ s = 46 ∨ s = 126 ∨ s = 47)

/-- The encoder loop of `getURLEncodedName` over the decoded runes:
unreserved runes append `string(s)` (their UTF-8 bytes); otherwise, if
`utf8.RuneLen(s) < 0` the whole function returns the original `name`;
otherwise each byte of the rune's UTF-8 encoding appends a `%XX` triplet
in uppercase hex. -/
def encodeLoop (name : List Nat) : List Nat → List Nat → List Nat
  | acc, [] => acc
  | acc, s :: rest =>
    if isUnreservedRune s then encodeLoop name (acc ++ encodeRuneBytes s) rest
    else if runeLen s < 0 then name
    else encodeLoop name (acc ++ ((encodeRuneBytes s).map percentHexUpper).flatten) rest

/-- `getURLEncodedName` from v4-utils.go: return the name unchanged when it
matches the reserved-names regexp, otherwise run the per-rune encoding loop
over the string's decoded runes. -/
def getURLEncodedName (name : List Nat) : List Nat :=
  if matchesReserved name then name
  else encodeLoop name [] (rangeRunes name)

/-- The emission the specification describes for a single code point:
unreserved code points are emitted unchanged, every other code point as one
`%XX` uppercase-hex triplet per byte of its UTF-8 encoding, in UTF-8 byte
order. -/
def specEmitRune (s : Nat) : List Nat :=
  if isUnreservedRune s then [s]
  else ((encodeRuneBytes s).map percentHexUpper).flatten

/-- The bytes of an ASCII Lean string literal (used to write expected
outputs readably). -/
def asciiOfString (s : String) : List Nat :=
  s.data.map Char.toNat

/-- The UTF-8 bytes of a Lean string literal, i.e. the bytes of the same Go
string literal. -/
def utf8OfString (s : String) : List Nat :=
  ((s.data.map (fun c => encodeRuneBytes c.toNat))).flatten

/-! ## The keyed hash (`sumHMAC` = HMAC-SHA256)

`sumHMAC` composes Go's `crypto/hmac` with `crypto/sha256`; both are embedded
here over `List Nat` bytes with 32-bit words as `Nat % 2^32` (FIPS 180-4). -/

/-- Reduce to a 32-bit word. -/
def w32 (n : Nat) : Nat := n % 4294967296

/-- Right rotation of a 32-bit word by `n` places, written arithmetically:
the high `32 - n` bits move down (`x / 2^n`), the low `n` bits move to the
top (`x % 2^n * 2^(32-n)`). -/
def rotr (n x : Nat) : Nat :=
  (x / 2 ^ n + x % 2 ^ n * 2 ^ (32 - n)) % 4294967296

/-- SHA-256 `Ch(e,f,g)`; the 32-bit complement of `e` is `4294967295 - e`. -/
def shaCh (e f g : Nat) : Nat := (e &&& f) ^^^ ((4294967295 - e) &&& g)

/-- SHA-256 `Maj(a,b,c)`. -/
def shaMaj (a b c : Nat) : Nat := (a &&& b) ^^^ (a &&& c) ^^^ (b &&& c)

/-- SHA-256 `Σ0`. -/
def bigSigma0 (x : Nat) : Nat := rotr 2 x ^^^ rotr 13 x ^^^ rotr 22 x

/-- SHA-256 `Σ1`. -/
def bigSigma1 (x : Nat) : Nat := rotr 6 x ^^^ rotr 11 x ^^^ rotr 25 x

/-- SHA-256 `σ0`. -/
def smallSigma0 (x : Nat) : Nat := rotr 7 x ^^^ rotr 18 x ^^^ (x >>> 3)

/-- SHA-256 `σ1`. -/
def smallSigma1 (x : Nat) : Nat := rotr 17 x ^^^ rotr 19 x ^^^ (x >>> 10)

/-- The 64 SHA-256 round constants of FIPS 180-4 (decimal, four per line,
row-major from K0 to K63). -/
def shaK : List Nat :=
  [1116352408, 1899447441, 3049323471, 3921009573,
   961987163, 1508970993, 2453635748, 2870763221,
   3624381080, 310598401, 607225278, 1426881987,
   1925078388, 2162078206, 2614888103, 3248222580,
   3835390401, 4022224774, 264347078, 604807628,
   770255983, 1249150122, 1555081692, 1996064986,
   2554220882, 2821834349, 2952996808, 3210313671,
   3336571891, 3584528711, 113926993, 338241895,
   666307205, 773529912, 1294757372, 1396182291,
   1695183700, 1986661051, 2177026350, 2456956037,
   2730485921, 2820302411, 3259730800, 3345764771,
   3516065817, 3600352804, 4094571909, 275423344,
   430227734, 506948616, 659060556, 883997877,
   958139571, 1322822218, 1537002063, 1747873779,
   1955562222, 2024104815, 2227730452, 2361852424,
   2428436474, 2756734187, 3204031479, 3329325298]

/-- The eight 32-bit working variables / chaining values of SHA-256. -/
structure Words8 where
  a : Nat
  b : Nat
  c : Nat
  d : Nat
  e : Nat
  f : Nat
  g : Nat
  h : Nat

/-- The SHA-256 initial hash value of FIPS 180-4 (decimal, H0 to H7). -/
def initH : Words8 :=
  ⟨1779033703, 3144134277, 1013904242, 2773480762,
   1359893119, 2600822924, 528734635, 1541459225⟩

/-- One SHA-256 compression round with round constant `k` and schedule word
`w`. -/
def shaRound (st : Words8) (k w : Nat) : Words8 :=
  let t1 := w32 (st.h + bigSigma1 st.e + shaCh st.e st.f st.g + k + w)
  let t2 := w32 (bigSigma0 st.a + shaMaj st.a st.b st.c)
  ⟨w32 (t1 + t2), st.a, st.b, st.c, w32 (st.d + t1), st.e, st.f, st.g⟩

/-- Run the 64 rounds over the zipped (constant, schedule word) pairs. -/
def roundsLoop : Words8 → List (Nat × Nat) → Words8
  | st, [] => st
  | st, (k, w) :: rest => roundsLoop (shaRound st k w) rest

/-- Big-endian 32-bit words from a byte list (four bytes per word; a trailing
fragment shorter than four bytes is ignored — blocks here are always a
multiple of four bytes). -/
def bytesToWords : List Nat → List Nat
  | b0 :: b1 :: b2 :: b3 :: rest =>
    (b0 * 16777216 + b1 * 65536 + b2 * 256 + b3) :: bytesToWords rest
  | _ => []

/-- Append the next message-schedule word:
`w[i] = w[i-16] + σ0(w[i-15]) + w[i-7] + σ1(w[i-2]) mod 2^32` at `i = length`. -/
def extendStep (ws : List Nat) : List Nat :=
  ws ++ [w32 (ws.getD (ws.length - 16) 0 + smallSigma0 (ws.getD (ws.length - 15) 0) +
    ws.getD (ws.length - 7) 0 + smallSigma1 (ws.getD (ws.length - 2) 0))]

/-- Iterate `extendStep`. -/
def extendMany : Nat → List Nat → List Nat
  | 0, ws => ws
  | k + 1, ws => extendMany k (extendStep ws)

/-- The 64-word message schedule of a 64-byte block. -/
def messageSchedule (block : List Nat) : List Nat :=
  extendMany 48 (bytesToWords block)

/-- Compress one 64-byte block into the chaining value. -/
def compressBlock (H : Words8) (block : List Nat) : Words8 :=
  let st := roundsLoop H (shaK.zip (messageSchedule block))
  ⟨w32 (H.a + st.a), w32 (H.b + st.b), w32 (H.c + st.c), w32 (H.d + st.d),
   w32 (H.e + st.e), w32 (H.f + st.f), w32 (H.g + st.g), w32 (H.h + st.h)⟩

/-- Big-endian bytes of a 32-bit word. -/
def wordBytes (w : Nat) : List Nat :=
  [w / 16777216 % 256, w / 65536 % 256, w / 256 % 256, w % 256]

/-- The digest bytes of a final chaining value: eight big-endian words,
32 bytes. -/
def digestBytes (H : Words8) : List Nat :=
  wordBytes H.a ++ wordBytes H.b ++ wordBytes H.c ++ wordBytes H.d ++
  wordBytes H.e ++ wordBytes H.f ++ wordBytes H.g ++ wordBytes H.h

/-- Big-endian bytes of the 64-bit message bit length. -/
def lenBytes64 (n : Nat) : List Nat :=
  [n / 72057594037927936 % 256, n / 281474976710656 % 256, n / 1099511627776 % 256,
   n / 4294967296 % 256, n / 16777216 % 256, n / 65536 % 256, n / 256 % 256, n % 256]

/-- SHA-256 padding: a `0x80` byte, zeros up to 56 mod 64, then the bit
length in 64-bit big-endian. -/
def sha256pad (msg : List Nat) : List Nat :=
  msg ++ 128 :: (List.replicate ((119 - msg.length % 64) % 64) 0 ++ lenBytes64 (8 * msg.length))

/-- Split into 64-byte blocks. Each step consumes at least one byte, so fuel
`length` suffices and keeps the recursion structural. -/
def toBlocksAux : Nat → List Nat → List (List Nat)
  | 0, _ => []
  | _ + 1, [] => []
  | fuel + 1, b :: rest => ((b :: rest).take 64) :: toBlocksAux fuel ((b :: rest).drop 64)

/-- The 64-byte blocks of a padded message. -/
def toBlocks (l : List Nat) : List (List Nat) :=
  toBlocksAux l.length l

/-- Go `crypto/sha256`: digest of a byte string. -/
def sha256 (msg : List Nat) : List Nat :=
  digestBytes ((toBlocks (sha256pad msg)).foldl compressBlock initH)

/-- `sumHMAC` from v4-utils.go: `hmac.New(sha256.New, key)` then `Write(data)`
and `Sum(nil)` — the standard HMAC construction with block size 64: a key
longer than one block is first hashed, the key is zero-padded to the block
size, and the digest is `H((k ^ opad) ++ H((k ^ ipad) ++ data))` with
`ipad = 0x36`, `opad = 0x5c`. -/
def sumHMAC (key data : List Nat) : List Nat :=
  let k0 := if 64 < key.length then sha256 key else key
  let kp := k0 ++ List.replicate (64 - k0.length) 0
  sha256 ((kp.map (fun b => b ^^^ 92)) ++ sha256 ((kp.map (fun b => b ^^^ 54)) ++ data))

/-- Example request for the canonical-header claims: host field set, two
stored headers. -/
def exReqA : HttpRequest :=
  ⟨[("X-Amz-Date", ["20150101T000000Z"]), ("Content-Type", ["text/plain"])], "example.com"⟩

/-- The same bindings as `exReqA` in the opposite storage order. -/
def exReqB : HttpRequest :=
  ⟨[("Content-Type", ["text/plain"]), ("X-Amz-Date", ["20150101T000000Z"])], "example.com"⟩

/-- Example request with one multi-valued header. -/
def exReqC : HttpRequest := ⟨[("X-Multi", ["a", "b"])], "h.example"⟩

/-! ## Theorems -/

/-- A SHA-256 digest is always exactly 32 bytes: eight big-endian 32-bit
words of four bytes each, independent of the chaining value reached. -/
theorem sha256_length (msg : List Nat) : (sha256 msg).length = 32 := by
  simp [sha256, digestBytes, wordBytes]

/-- `runeLen` is nonnegative on every rune value that is at most U+10FFFF
and not a surrogate. -/
theorem runeLen_nonneg_of_range (r : Nat) (h1 : r ≤ 1114111)
    (h2 : r < 55296 ∨ 57343 < r) : 0 ≤ runeLen r := by
  unfold runeLen
  split_ifs <;> omega

/-- Decoding a rune from a nonempty byte string never yields a surrogate or
an out-of-range value: every branch of `decodeRune` produces either an ASCII
byte, a value within the shape-bounds of its sequence length, or U+FFFD.
Hence `utf8.RuneLen` of a decoded rune is never negative. -/
theorem decodeRune_runeLen_nonneg (b0 : Nat) (rest : List Nat) :
    0 ≤ runeLen (decodeRune (b0 :: rest)).1 := by
  unfold decodeRune
  repeat' split
  all_goals simp only [accept3, accept4] at *
  all_goals apply runeLen_nonneg_of_range <;> omega

/-- Every rune yielded by ranging over a byte string has nonnegative
`utf8.RuneLen`. -/
theorem rangeRunesAux_runeLen_nonneg :
    ∀ (fuel : Nat) (l : List Nat), ∀ s ∈ rangeRunesAux fuel l, 0 ≤ runeLen s := by
  intro fuel
  induction fuel with
  | zero => intro l s hs; simp [rangeRunesAux] at hs
  | succ n ih =>
    intro l s hs
    match l with
    | [] => simp [rangeRunesAux] at hs
    | b :: rest =>
      rw [rangeRunesAux] at hs
      rcases List.mem_cons.mp hs with h | h
      · subst h; exact decodeRune_runeLen_nonneg b rest
      · exact ih _ s h

/-- Every rune yielded by `rangeRunes` has nonnegative `utf8.RuneLen`. -/
theorem rangeRunes_runeLen_nonneg (name : List Nat) :
    ∀ s ∈ rangeRunes name, 0 ≤ runeLen s :=
  rangeRunesAux_runeLen_nonneg name.length name

/-- An unreserved rune is ASCII, so its UTF-8 encoding (Go `string(s)`) is
the single byte itself. -/
theorem encodeRuneBytes_unreserved (s : Nat) (h : isUnreservedRune s = true) :
    encodeRuneBytes s = [s] := by
  simp only [isUnreservedRune, decide_eq_true_eq] at h
  unfold encodeRuneBytes
  rw [if_pos (by omega)]

/-- When every rune in the remaining list has nonnegative `utf8.RuneLen`,
the encoder loop never takes the abort branch and simply appends the
per-rune emission of each rune. -/
theorem encodeLoop_eq (name : List Nat) :
    ∀ (runes acc : List Nat), (∀ s ∈ runes, 0 ≤ runeLen s) →
      encodeLoop name acc runes = acc ++ (runes.map specEmitRune).flatten := by
  intro runes
  induction runes with
  | nil => intro acc _; simp [encodeLoop]
  | cons s rest ih =>
    intro acc hval
    have hs : 0 ≤ runeLen s := hval s (List.mem_cons_self s rest)
    have hrest : ∀ t ∈ rest, 0 ≤ runeLen t := fun t ht => hval t (List.mem_cons_of_mem s ht)
    by_cases hu : isUnreservedRune s
    · rw [encodeLoop, if_pos hu, ih _ hrest]
      simp [specEmitRune, hu, encodeRuneBytes_unreserved s hu]
    · rw [encodeLoop, if_neg hu, if_neg (by omega), ih _ hrest]
      simp [specEmitRune, hu]

/-- One step of the canonical-header loop, expressed through the effective
values of the leading signed header: the lookup-then-override chain of the
code equals `effectiveValues`. -/
theorem canonicalHeadersLoop_cons (req : HttpRequest) (acc header : String)
    (rest : List String) :
    canonicalHeadersLoop req acc (header :: rest) =
      match effectiveValues req header with
      | none => ("", some SigError.missingRequiredSignedHeader)
      | some values =>
        canonicalHeadersLoop req (acc ++ header ++ ":" ++ joinValues values ++ "\n") rest := by
  rw [canonicalHeadersLoop]
  by_cases he : header = "expect"
  · subst he; simp [effectiveValues]
  · by_cases hh : header = "host"
    · subst hh; simp [effectiveValues, he]
    · simp [effectiveValues, he, hh]

/-- `effectiveValues` is `none` exactly for a non-`expect`, non-`host` header
whose canonical key is absent from the request's header map. -/
theorem effectiveValues_none_iff (req : HttpRequest) (header : String) :
    effectiveValues req header = none ↔
      header ≠ "expect" ∧ header ≠ "host" ∧
        req.header.lookup (canonicalHeaderKey header) = none := by
  unfold effectiveValues
  split_ifs with he hh <;> simp_all

/-- On success the canonical-header loop appends exactly one line per signed
header, in signed-header order. -/
theorem canonicalHeadersLoop_success (req : HttpRequest) :
    ∀ (signed : List String) (acc : String),
      (canonicalHeadersLoop req acc signed).2 = none →
      (canonicalHeadersLoop req acc signed).1 = acc ++ concatAll (signed.map (headerLine req)) := by
  intro signed
  induction signed with
  | nil => intro acc _; simp [canonicalHeadersLoop, concatAll, String.append_empty]
  | cons header rest ih =>
    intro acc hnone
    rw [canonicalHeadersLoop_cons] at hnone ⊢
    cases hev : effectiveValues req header with
    | none => rw [hev] at hnone; simp at hnone
    | some values =>
      rw [hev] at hnone
      simp only at hnone ⊢
      rw [ih _ hnone]
      simp [concatAll, headerLine, hev, String.append_assoc]

/-- The canonical-header loop errors exactly when some signed header has no
effective values. -/
theorem canonicalHeadersLoop_err_iff (req : HttpRequest) :
    ∀ (signed : List String) (acc : String),
      (canonicalHeadersLoop req acc signed).2 ≠ none ↔
        ∃ h, h ∈ signed ∧ effectiveValues req h = none := by
  intro signed
  induction signed with
  | nil => intro acc; simp [canonicalHeadersLoop]
  | cons header rest ih =>
    intro acc
    rw [canonicalHeadersLoop_cons]
    cases hev : effectiveValues req header with
    | none =>
      simp only [ne_eq, Option.some_ne_none, not_false_eq_true, true_iff]
      exact ⟨header, List.mem_cons_self header rest, hev⟩
    | some values =>
      simp only
      rw [ih]
      constructor
      · rintro ⟨h, hmem, hnone⟩
        exact ⟨h, List.mem_cons_of_mem header hmem, hnone⟩
      · rintro ⟨h, hmem, hnone⟩
        rcases List.mem_cons.mp hmem with rfl | hmem
        · rw [hev] at hnone; exact absurd hnone (by simp)
        · exact ⟨h, hmem, hnone⟩

/-- When the canonical-header loop errors, the returned string is empty. -/
theorem canonicalHeadersLoop_err_empty (req : HttpRequest) :
    ∀ (signed : List String) (acc : String),
      (canonicalHeadersLoop req acc signed).2 ≠ none →
      (canonicalHeadersLoop req acc signed).1 = "" := by
  intro signed
  induction signed with
  | nil => intro acc h; simp [canonicalHeadersLoop] at h
  | cons header rest ih =>
    intro acc herr
    rw [canonicalHeadersLoop_cons] at herr ⊢
    cases hev : effectiveValues req header with
    | none => rfl
    | some values =>
      rw [hev] at herr
      simp only at herr ⊢
      exact ih _ herr

/-- A signed-header list consisting only of `"expect"` and `"host"` can
never make the loop error: both names always have effective values. -/
theorem canonicalHeadersLoop_special_none (req : HttpRequest) :
    ∀ (signed : List String) (acc : String),
      (∀ h, h ∈ signed → h = "expect" ∨ h = "host") →
      (canonicalHeadersLoop req acc signed).2 = none := by
  intro signed
  induction signed with
  | nil => intro acc _; simp [canonicalHeadersLoop]
  | cons header rest ih =>
    intro acc hall
    rw [canonicalHeadersLoop_cons]
    have hev : ∃ vs, effectiveValues req header = some vs := by
      rcases hall header (List.mem_cons_self header rest) with rfl | rfl
      · exact ⟨["100-continue"], by simp [effectiveValues]⟩
      · exact ⟨[req.host], by simp [effectiveValues]⟩
    rcases hev with ⟨vs, hev⟩
    rw [hev]
    exact ih _ (fun h hm => hall h (List.mem_cons_of_mem header hm))

/-- An `Option SigError` is `some` of the only error exactly when it is not
`none`. -/
theorem sigErrorOption_some_iff (e : Option SigError) :
    e = some SigError.missingRequiredSignedHeader ↔ e ≠ none := by
  cases e with
  | none => simp
  | some v => cases v; simp

/-- Claim C1: on any input that does not wholly consist of unreserved
characters, `getURLEncodedName` processes the string one decoded code point
at a time — ASCII letters, digits and `- _ . ~ /` are emitted unchanged and
every other code point becomes one uppercase `%XX` triplet per UTF-8 byte,
in UTF-8 byte order; in particular the single character `é` encodes to
`%C3%A9` and a space encodes to `%20`. -/
theorem claim_C1 :
    (∀ name : List Nat, (∃ b, b ∈ name ∧ isReservedByte b = false) →
        getURLEncodedName name = ((rangeRunes name).map specEmitRune).flatten)
    ∧ getURLEncodedName (utf8OfString "é") = asciiOfString "%C3%A9"
    ∧ getURLEncodedName (asciiOfString " ") = asciiOfString "%20" := by
  refine ⟨?_, by decide, by decide⟩
  rintro name ⟨b, hb, hnb⟩
  have hall : name.all isReservedByte = false := by
    cases h : name.all isReservedByte
    · rfl
    · have := List.all_eq_true.mp h b hb
      simp [hnb] at this
  have hm : matchesReserved name = false := by
    simp [matchesReserved, hall]
  rw [getURLEncodedName, if_neg (by simp [hm])]
  have := encodeLoop_eq name (rangeRunes name) [] (rangeRunes_runeLen_nonneg name)
  simpa using this

/-- Witness for C1 at the concrete input `" "`. -/
theorem claim_C1_witness :
    getURLEncodedName [32] = ((rangeRunes [32]).map specEmitRune).flatten :=
  claim_C1.1 [32] ⟨32, by decide, by decide⟩

/-- Claim C2: any nonempty string of unreserved bytes (letters, digits,
`- _ . ~ /`, slashes preserved) is returned unchanged by the fast path, and
the empty string encodes to the empty string. -/
theorem claim_C2 :
    (∀ name : List Nat, name ≠ [] → (∀ b ∈ name, isReservedByte b = true) →
        getURLEncodedName name = name)
    ∧ getURLEncodedName [] = [] := by
  refine ⟨?_, by decide⟩
  intro name hne hall
  have hm : matchesReserved name = true := by
    unfold matchesReserved
    rw [List.all_eq_true.mpr (fun b hb => by simp [hall b hb]), Bool.and_true]
    simp [List.isEmpty_iff, hne]
  rw [getURLEncodedName, if_pos (by simp [hm])]

/-- Witness for C2 at the concrete input `"a"`. -/
theorem claim_C2_witness : getURLEncodedName [97] = [97] :=
  claim_C2.1 [97] (by decide) (by decide)

/-- Counterexample to C3 as stated: the byte `0xFF` is a malformed code
point, yet `getURLEncodedName` does not return the original input — ranging
over a Go string decodes the malformed byte as U+FFFD, which is then
percent-encoded. -/
theorem claim_C3_counterexample : getURLEncodedName [255] ≠ [255] := by decide

/-- Claim C3 (amended): the decoded runes of any byte string always have a
nonnegative `utf8.RuneLen` — ranging over a Go string replaces malformed
bytes by U+FFFD — so the abort branch returning the original input is
unreachable and malformed bytes are emitted as `%EF%BF%BD`; the function
never returns an error. -/
theorem claim_C3 :
    (∀ (name : List Nat), ∀ s ∈ rangeRunes name, ¬ runeLen s < 0)
    ∧ getURLEncodedName [255] = asciiOfString "%EF%BF%BD" := by
  refine ⟨?_, by decide⟩
  intro name s hs
  have := rangeRunes_runeLen_nonneg name s hs
  omega

/-- Witness for C3 (amended) at the concrete input `[0xFF]`. -/
theorem claim_C3_witness : ¬ runeLen 65533 < 0 :=
  claim_C3.1 [255] 65533 (by decide)

/-- Claim C4: whenever `getCanonicalHeaders` succeeds, the output is exactly
one `name:` + comma-joined-values + `"\n"` line per signed header in
signed-header order, independent of the request's storage order; with the
concrete example and a multi-valued header example. -/
theorem claim_C4 :
    (∀ (signed : List String) (req : HttpRequest),
        (getCanonicalHeaders signed req).2 = none →
        (getCanonicalHeaders signed req).1 = concatAll (signed.map (headerLine req)))
    ∧ getCanonicalHeaders ["host", "x-amz-date"] exReqA =
        ("host:example.com\nx-amz-date:20150101T000000Z\n", none)
    ∧ getCanonicalHeaders ["host", "x-amz-date"] exReqB =
        ("host:example.com\nx-amz-date:20150101T000000Z\n", none)
    ∧ getCanonicalHeaders ["x-multi"] exReqC = ("x-multi:a,b\n", none) := by
  refine ⟨?_, by decide, by decide, by decide⟩
  intro signed req h
  unfold getCanonicalHeaders at h ⊢
  have := canonicalHeadersLoop_success req signed "" h
  simpa using this

/-- Witness for C4 at the concrete example request. -/
theorem claim_C4_witness :
    (getCanonicalHeaders ["host", "x-amz-date"] exReqA).1 =
      concatAll ((["host", "x-amz-date"]).map (headerLine exReqA)) :=
  claim_C4.1 ["host", "x-amz-date"] exReqA (by decide)

/-- Claim C5: `getCanonicalHeaders` returns the
`MissingRequiredSignedHeader` error exactly when some signed header other
than `expect` and `host` has no entry under its canonical key in the header
map, and in that case the returned string is empty. -/
theorem claim_C5 :
    ∀ (signed : List String) (req : HttpRequest),
      ((getCanonicalHeaders signed req).2 = some SigError.missingRequiredSignedHeader ↔
        ∃ h, h ∈ signed ∧ h ≠ "expect" ∧ h ≠ "host" ∧
          req.header.lookup (canonicalHeaderKey h) = none)
      ∧ ((getCanonicalHeaders signed req).2 = some SigError.missingRequiredSignedHeader →
          (getCanonicalHeaders signed req).1 = "") := by
  intro signed req
  unfold getCanonicalHeaders
  constructor
  · rw [sigErrorOption_some_iff, canonicalHeadersLoop_err_iff req signed ""]
    simp only [effectiveValues_none_iff]
  · intro h
    exact canonicalHeadersLoop_err_empty req signed ""
      ((sigErrorOption_some_iff _).mp h)

/-- Witness for C5 at a request lacking the signed custom header. -/
theorem claim_C5_witness :
    (getCanonicalHeaders ["x-custom-header"] ⟨[], "h.example"⟩).1 = "" :=
  (claim_C5 ["x-custom-header"] ⟨[], "h.example"⟩).2 (by decide)

/-- Claim C6: a signed header `"expect"` is always treated as present with
the single value `"100-continue"`, whatever the request's header map
contains; in particular signed headers `["expect"]` on a request with no
Expect entry (or a different stored Expect value) yield
`"expect:100-continue\n"` with no error. -/
theorem claim_C6 :
    (∀ (req : HttpRequest) (acc : String) (rest : List String),
        canonicalHeadersLoop req acc ("expect" :: rest) =
          canonicalHeadersLoop req
            (acc ++ "expect" ++ ":" ++ joinValues ["100-continue"] ++ "\n") rest)
    ∧ getCanonicalHeaders ["expect"] ⟨[], "h.example"⟩ = ("expect:100-continue\n", none)
    ∧ getCanonicalHeaders ["expect"] ⟨[("Expect", ["999-other"])], "h.example"⟩ =
        ("expect:100-continue\n", none) := by
  refine ⟨?_, by decide, by decide⟩
  intro req acc rest
  rw [canonicalHeadersLoop_cons]
  simp [effectiveValues]

/-- Claim C7: a signed header `"host"` is always treated as present with the
single value of the request's dedicated host field, ignoring any `Host`
entry stored in the header map. -/
theorem claim_C7 :
    (∀ (req : HttpRequest) (acc : String) (rest : List String),
        canonicalHeadersLoop req acc ("host" :: rest) =
          canonicalHeadersLoop req
            (acc ++ "host" ++ ":" ++ joinValues [req.host] ++ "\n") rest)
    ∧ getCanonicalHeaders ["host"] ⟨[("Host", ["stored.example"])], "example.com"⟩ =
        ("host:example.com\n", none)
    ∧ getCanonicalHeaders ["host"] ⟨[], "example.com"⟩ = ("host:example.com\n", none) := by
  refine ⟨?_, by decide, by decide⟩
  intro req acc rest
  rw [canonicalHeadersLoop_cons]
  simp [effectiveValues]

/-- Claim C8: `isValidRegion` accepts the empty string, and a nonempty
string exactly when it equals the configured `REGION` (case-sensitive); it
is a total Boolean function. -/
theorem claim_C8 :
    isValidRegion "" = true ∧
      ∀ r : String, r ≠ "" → (isValidRegion r = true ↔ r = REGION) := by
  refine ⟨rfl, ?_⟩
  intro r hr
  unfold isValidRegion
  rw [if_neg hr]
  exact beq_iff_eq

/-- Witness for C8 at the concrete region `"wrong-region"`. -/
theorem claim_C8_witness :
    isValidRegion "wrong-region" = true ↔ "wrong-region" = REGION :=
  claim_C8.2 "wrong-region" (by decide)

/-- Claim C9: `sumHMAC` always returns exactly 32 bytes and is
deterministic — equal `(key, data)` arguments give equal digests. -/
theorem claim_C9 :
    ∀ key data : List Nat,
      (sumHMAC key data).length = 32 ∧ sumHMAC key data = sumHMAC key data := by
  intro key data
  exact ⟨sha256_length _, rfl⟩

/-- Claim C10: signed headers named exactly `"expect"` or `"host"` can never
trigger `MissingRequiredSignedHeader`; an empty host field still yields the
line `"host:\n"`; and the compensation is keyed on the exact lowercase
names — `"Host"` and `"Expect"` in the signed list are not compensated and
do error on a request without such stored headers. -/
theorem claim_C10 :
    (∀ (signed : List String) (req : HttpRequest),
        (∀ h, h ∈ signed → h = "expect" ∨ h = "host") →
        (getCanonicalHeaders signed req).2 = none)
    ∧ getCanonicalHeaders ["host"] ⟨[], ""⟩ = ("host:\n", none)
    ∧ getCanonicalHeaders ["Host"] ⟨[], "example.com"⟩ =
        ("", some SigError.missingRequiredSignedHeader)
    ∧ getCanonicalHeaders ["Expect"] ⟨[], "h.example"⟩ =
        ("", some SigError.missingRequiredSignedHeader) := by
  refine ⟨?_, by decide, by decide, by decide⟩
  intro signed req hall
  exact canonicalHeadersLoop_special_none req signed "" hall

/-- Witness for C10 at the signed-header list `["expect", "host"]`. -/
theorem claim_C10_witness :
    (getCanonicalHeaders ["expect", "host"] ⟨[], "e.example"⟩).2 = none :=
  claim_C10.1 ["expect", "host"] ⟨[], "e.example"⟩ (by decide)

end YigV4
